import Mathlib

/-!
Shallow embedding of `src/message.rs` (the wire codec of the `wl` repository).

Bytes are modelled as natural numbers below 256, the byte stream as a
`List Nat`, and 32-bit words as natural numbers below 2^32.  The host is
little-endian, so `u32::to_ne_bytes` / `u32::from_ne_bytes` are the
little-endian conversions.  Fallible I/O is modelled with `Except`, and the
reader state (the unconsumed part of the stream) is threaded explicitly so
that statements about how many bytes an operation consumes can be made.
-/

namespace Wl

instance {ε α : Type} [DecidableEq ε] [DecidableEq α] : DecidableEq (Except ε α) := fun x y =>
  match x, y with
  | Except.ok a, Except.ok b =>
    if h : a = b then Decidable.isTrue (by rw [h]) else Decidable.isFalse (by simp [h])
  | Except.error a, Except.error b =>
    if h : a = b then Decidable.isTrue (by rw [h]) else Decidable.isFalse (by simp [h])
  | Except.ok _, Except.error _ => Decidable.isFalse (by simp)
  | Except.error _, Except.ok _ => Decidable.isFalse (by simp)

/-- Little-endian byte decomposition of a 32-bit word, as in
`u32::to_ne_bytes` on a little-endian host. -/
def toLE4 (n : Nat) : List Nat :=
  [n % 256, n / 256 % 256, n / 65536 % 256, n / 16777216 % 256]

/-- `u32::from_ne_bytes([b0,b1,b2,b3])` on a little-endian host. -/
def fromBytes4 (b0 b1 b2 b3 : Nat) : Nat :=
  b0 + b1 * 256 + b2 * 65536 + b3 * 16777216

/-- `u32::from_ne_bytes` applied to a 4-byte buffer. -/
def fromLE4 : List Nat → Nat
  | [b0, b1, b2, b3] => fromBytes4 b0 b1 b2 b3
  | _ => 0

/-- The byte view of a `&[u32]` slice on a little-endian host
(`std::slice::from_raw_parts(args.as_ptr() as *const u8, 4 * args.len())`). -/
def wordsToBytes : List Nat → List Nat
  | [] => []
  | w :: ws => toLE4 w ++ wordsToBytes ws

/-- Round a byte length up to the next multiple of 4, as in
`if len & 0b11 != 0 { len = (len & !0b11) + 4 }`. -/
def pad4 (len : Nat) : Nat :=
  if len % 4 ≠ 0 then (len - len % 4) + 4 else len

/-- The two kinds of `std::io::Error` the framer can produce:
`ErrorKind::UnexpectedEof` from a short `read_exact`, and
`ErrorKind::InvalidData` from the size validation. -/
inductive IOErr
  | unexpectedEof
  | invalidData
deriving DecidableEq

/-- `Message { object, opcode, args }`.  `object` is a `u32`, `opcode` a
`u16`, `args` a `Vec<u32>`; the corresponding range constraints appear as
hypotheses where a theorem needs them. -/
structure Message where
  object : Nat
  opcode : Nat
  args : List Nat
deriving DecidableEq

/-- `reader.read_exact` on an in-memory buffer: succeed iff at least `k`
bytes remain; on failure (the slice implementation) nothing is consumed. -/
def readExact (k : Nat) (s : List Nat) : Except IOErr (List Nat) × List Nat :=
  if k ≤ s.length then (Except.ok (s.take k), s.drop k)
  else (Except.error IOErr.unexpectedEof, s)

/-- The body loop of `Message::read`:
`while message_size > 0 { read_exact(4); args.push(word); message_size -= 4 }`,
entered with `n = message_size - 8`, a multiple of 4. -/
def readWords (n : Nat) (s : List Nat) : Except IOErr (List Nat) × List Nat :=
  if _h : n = 0 then (Except.ok [], s)
  else
    match readExact 4 s with
    | (Except.error e, s1) => (Except.error e, s1)
    | (Except.ok b, s1) =>
      match readWords (n - 4) s1 with
      | (Except.error e, s2) => (Except.error e, s2)
      | (Except.ok ws, s2) => (Except.ok (fromLE4 b :: ws), s2)
termination_by n
decreasing_by omega

/-- `Message::read`: decode object id and the packed size/opcode word,
validate the size (`size & 0b11 != 0 || size < 8` is `InvalidData`), then
read `size - 8` body bytes as words. -/
def Message.read (s : List Nat) : Except IOErr Message × List Nat :=
  match readExact 4 s with
  | (Except.error e, s1) => (Except.error e, s1)
  | (Except.ok ob, s1) =>
    match readExact 4 s1 with
    | (Except.error e, s2) => (Except.error e, s2)
    | (Except.ok pb, s2) =>
      let p := fromLE4 pb
      let message_size := p / 65536 % 65536
      let opcode := p % 65536
      if message_size % 4 ≠ 0 ∨ message_size < 8 then
        (Except.error IOErr.invalidData, s2)
      else
        match readWords (message_size - 8) s2 with
        | (Except.error e, s3) => (Except.error e, s3)
        | (Except.ok args, s3) => (Except.ok ⟨fromLE4 ob, opcode, args⟩, s3)

/-- `Message::send`: write the object id, then
`((message_size << 16) as u32) | opcode as u32`, then the raw bytes of the
argument words.  The shift is performed in `usize` and truncated to `u32`. -/
def Message.send (m : Message) : List Nat :=
  toLE4 m.object
    ++ toLE4 ((((8 + 4 * m.args.length) <<< 16) % 4294967296) ||| m.opcode)
    ++ wordsToBytes m.args

/-- `slice::chunks_exact(4)` together with its remainder: the list of full
4-byte chunks packed into words via `from_ne_bytes`, and the trailing
remainder of fewer than 4 bytes. -/
def chunksRem : List Nat → List Nat × List Nat
  | b0 :: b1 :: b2 :: b3 :: rest =>
    let (ws, r) := chunksRem rest
    (fromBytes4 b0 b1 b2 b3 :: ws, r)
  | l => ([], l)

/-- `Message::push_str`: push `len as u32 + 1` (u32 cast and wrapping add),
extend with the full chunks, then always push one final word holding the
remainder with a null terminator in the first pad byte. -/
def Message.push_str (m : Message) (s : List Nat) : Message :=
  let ws := (chunksRem s).1
  let r := (chunksRem s).2
  let last :=
    match r with
    | [] => 0
    | [r0] => fromBytes4 r0 0 0 0
    | [r0, r1] => fromBytes4 r0 r1 0 0
    | [r0, r1, r2] => fromBytes4 r0 r1 r2 0
    | _ => 0
  { m with args := m.args ++ [(s.length % 4294967296 + 1) % 4294967296] ++ ws ++ [last] }

/-- `Message::push_bytes`: push `len as u32 | 0b11`, extend with the full
chunks, and push a zero-padded final word only when a remainder exists. -/
def Message.push_bytes (m : Message) (bytes : List Nat) : Message :=
  let ws := (chunksRem bytes).1
  let r := (chunksRem bytes).2
  let tail :=
    match r with
    | [] => []
    | [r0] => [fromBytes4 r0 0 0 0]
    | [r0, r1] => [fromBytes4 r0 r1 0 0]
    | [r0, r1, r2] => [fromBytes4 r0 r1 r2 0]
    | _ => []
  { m with args := m.args ++ [(bytes.length % 4294967296) ||| 3] ++ ws ++ tail }

/-- `std::str::from_utf8` validity, following the UTF-8 acceptance rules of
`core::str::validations` (continuation bytes in `80..=BF`, with the
restricted ranges after `E0`, `ED`, `F0` and `F4`; lead bytes `C0`, `C1`
and `F5..` are always invalid). -/
def isValidUtf8 : List Nat → Bool
  | [] => true
  | b0 :: rest =>
    if b0 < 0x80 then isValidUtf8 rest
    else if b0 < 0xC2 then false
    else if b0 < 0xE0 then
      match rest with
      | b1 :: rest1 => decide (0x80 ≤ b1 ∧ b1 ≤ 0xBF) && isValidUtf8 rest1
      | [] => false
    else if b0 < 0xF0 then
      match rest with
      | b1 :: b2 :: rest2 =>
        decide ((if b0 = 0xE0 then 0xA0 else 0x80) ≤ b1
            ∧ b1 ≤ (if b0 = 0xED then 0x9F else 0xBF))
          && decide (0x80 ≤ b2 ∧ b2 ≤ 0xBF)
          && isValidUtf8 rest2
      | _ => false
    else if b0 < 0xF5 then
      match rest with
      | b1 :: b2 :: b3 :: rest3 =>
        decide ((if b0 = 0xF0 then 0x90 else 0x80) ≤ b1
            ∧ b1 ≤ (if b0 = 0xF4 then 0x8F else 0xBF))
          && decide (0x80 ≤ b2 ∧ b2 ≤ 0xBF)
          && decide (0x80 ≤ b3 ∧ b3 ≤ 0xBF)
          && isValidUtf8 rest3
      | _ => false
    else false

/-- `DispatchError` (from the crate root): the variants the argument cursor
produces.  `Utf8Error` keeps the human-readable field description. -/
inductive DispatchError
  | ExpectedArgument (field : String)
  | Utf8Error (desc : String)
deriving DecidableEq

/-- `NewId { interface, version, id }`; the interface name is kept as its
byte sequence (valid UTF-8 whenever construction succeeds). -/
structure NewId where
  interface : List Nat
  version : Nat
  id : Nat
deriving DecidableEq

namespace Args

/-- `Args::next_u32`: take the front word and advance; the cursor state is
the remaining `&[u32]` slice. -/
def next_u32 (args : List Nat) : Option Nat × List Nat :=
  match args with
  | [] => (none, [])
  | a :: rest => (some a, rest)

/-- `Args::next_str`: read a length word, round it up in place to a
multiple of 4, fail when the padded length exceeds the remaining bytes,
otherwise advance by the padded word count and return the bytes up to the
first null found within the (padded) length. -/
def next_str (args : List Nat) : Option (List Nat) × List Nat :=
  match next_u32 args with
  | (none, a1) => (none, a1)
  | (some len0, a1) =>
    let len := pad4 len0
    if len > a1.length * 4 then (none, a1)
    else
      let str := wordsToBytes a1
      let null_index := ((str.take len).takeWhile (fun b => b != 0)).length
      (some (str.take null_index), a1.drop (len / 4))

/-- `Args::next_array`: same length handling as `next_str`, but the result
is the first `len` bytes verbatim (declared length, no null search). -/
def next_array (args : List Nat) : Option (List Nat) × List Nat :=
  match next_u32 args with
  | (none, a1) => (none, a1)
  | (some len, a1) =>
    let aligned := pad4 len
    if a1.length * 4 < aligned then (none, a1)
    else (some ((wordsToBytes a1).take len), a1.drop (aligned / 4))

/-- Follows the claim wording for C4 (not the source): the null search is
performed within the declared `len` bytes only, not the padded span. -/
def next_str_claim (args : List Nat) : Option (List Nat) × List Nat :=
  match next_u32 args with
  | (none, a1) => (none, a1)
  | (some len0, a1) =>
    if pad4 len0 > a1.length * 4 then (none, a1)
    else
      (some (((wordsToBytes a1).take len0).takeWhile (fun b => b != 0)),
        a1.drop (pad4 len0 / 4))

/-- `Args::next_new_id`: extract a string (advancing the cursor), then
check UTF-8, then read version and id; each missing piece yields an
`ExpectedArgument` error naming the field. -/
def next_new_id (args : List Nat) : Except DispatchError NewId × List Nat :=
  match next_str args with
  | (none, a1) => (Except.error (DispatchError.ExpectedArgument "new_id interface"), a1)
  | (some sbytes, a1) =>
    if isValidUtf8 sbytes then
      match next_u32 a1 with
      | (none, a2) => (Except.error (DispatchError.ExpectedArgument "new_id version"), a2)
      | (some v, a2) =>
        match next_u32 a2 with
        | (none, a3) => (Except.error (DispatchError.ExpectedArgument "new_id id"), a3)
        | (some i, a3) => (Except.ok ⟨sbytes, v, i⟩, a3)
    else (Except.error (DispatchError.Utf8Error "Interface name for a generic new_id"), a1)

/-- `Args::next_fd` has return type `!` and body `unimplemented!()`: it
panics on every call.  The panic is modelled as the error outcome of an
`Except` whose success type is empty, so no value can ever be produced. -/
def next_fd (_args : List Nat) : Except String Empty :=
  Except.error "not implemented"

end Args

/-! ### Helper lemmas -/

theorem toLE4_length (n : Nat) : (toLE4 n).length = 4 := rfl

theorem fromLE4_toLE4 {n : Nat} (h : n < 4294967296) : fromLE4 (toLE4 n) = n := by
  simp only [toLE4, fromLE4, fromBytes4]
  omega

theorem readExact_of_le {k : Nat} {s : List Nat} (h : k ≤ s.length) :
    readExact k s = (Except.ok (s.take k), s.drop k) := by
  simp [readExact, h]

theorem readExact_append {k : Nat} {l rest : List Nat} (h : l.length = k) :
    readExact k (l ++ rest) = (Except.ok l, rest) := by
  rw [readExact_of_le (by simp [List.length_append]; omega)]
  rw [List.take_left' h, List.drop_left' h]

theorem wordsToBytes_length (ws : List Nat) : (wordsToBytes ws).length = 4 * ws.length := by
  induction ws with
  | nil => rfl
  | cons a t ih => simp [wordsToBytes, List.length_append, toLE4_length, ih]; omega

theorem readWords_append {args : List Nat} (rest : List Nat)
    (ha : ∀ a ∈ args, a < 4294967296) :
    readWords (4 * args.length) (wordsToBytes args ++ rest) = (Except.ok args, rest) := by
  induction args generalizing rest with
  | nil =>
    rw [readWords]
    simp [wordsToBytes]
  | cons a t ih =>
    rw [readWords]
    have hne : ¬ (4 * (a :: t).length = 0) := by simp [List.length_cons]
    rw [dif_neg hne]
    have hres : wordsToBytes (a :: t) ++ rest = toLE4 a ++ (wordsToBytes t ++ rest) := by
      simp [wordsToBytes, List.append_assoc]
    have harg : 4 * (a :: t).length - 4 = 4 * t.length := by simp [List.length_cons]; omega
    simp only [hres, readExact_append (toLE4_length a), harg,
      ih rest (fun x hx => ha x (List.mem_cons_of_mem a hx)),
      fromLE4_toLE4 (ha a (List.mem_cons_self a t))]

theorem send_info {L opcode : Nat} (hL : L ≤ 16381) (hop : opcode < 65536) :
    (((8 + 4 * L) <<< 16) % 4294967296) ||| opcode = (8 + 4 * L) * 65536 + opcode := by
  rw [Nat.shiftLeft_eq]
  have h16 : (2 : Nat) ^ 16 = 65536 := by norm_num
  rw [h16, Nat.mod_eq_of_lt (by omega)]
  rw [mul_comm (8 + 4 * L) 65536]
  rw [← h16, ← Nat.mul_add_lt_is_or (by omega) (8 + 4 * L)]

theorem take_length_takeWhile (l : List Nat) (p : Nat → Bool) :
    l.take ((l.takeWhile p).length) = l.takeWhile p := by
  induction l with
  | nil => rfl
  | cons a t ih =>
    by_cases h : p a
    · simp [List.takeWhile_cons, h, ih]
    · simp [List.takeWhile_cons, h]

theorem length_takeWhile_le (l : List Nat) (p : Nat → Bool) :
    (l.takeWhile p).length ≤ l.length := by
  induction l with
  | nil => simp
  | cons a t ih =>
    by_cases h : p a
    · simp [List.takeWhile_cons, h]; omega
    · simp [List.takeWhile_cons, h]

theorem take_takeWhile_of_take (str : List Nat) (pad : Nat) (p : Nat → Bool) :
    str.take (((str.take pad).takeWhile p).length) = (str.take pad).takeWhile p := by
  have h1 : ((str.take pad).takeWhile p).length ≤ pad := by
    refine le_trans (length_takeWhile_le _ _) ?_
    rw [List.length_take]
    omega
  have h2 : str.take (((str.take pad).takeWhile p).length)
      = (str.take pad).take (((str.take pad).takeWhile p).length) := by
    rw [List.take_take, min_eq_left h1]
  rw [h2, take_length_takeWhile]

theorem next_str_cons_of_le {len0 : Nat} {rest : List Nat}
    (h : pad4 len0 ≤ rest.length * 4) :
    Args.next_str (len0 :: rest) =
      (some (((wordsToBytes rest).take (pad4 len0)).takeWhile (fun b => b != 0)),
        rest.drop (pad4 len0 / 4)) := by
  simp only [Args.next_str, Args.next_u32]
  rw [if_neg (by omega)]
  rw [take_takeWhile_of_take]

theorem next_str_cons_of_gt {len0 : Nat} {rest : List Nat}
    (h : rest.length * 4 < pad4 len0) :
    Args.next_str (len0 :: rest) = (none, rest) := by
  simp only [Args.next_str, Args.next_u32]
  rw [if_pos (by omega)]

theorem next_array_cons_of_le {len : Nat} {rest : List Nat}
    (h : pad4 len ≤ rest.length * 4) :
    Args.next_array (len :: rest) =
      (some ((wordsToBytes rest).take len), rest.drop (pad4 len / 4)) := by
  simp only [Args.next_array, Args.next_u32]
  rw [if_neg (by omega)]

theorem next_array_cons_of_gt {len : Nat} {rest : List Nat}
    (h : rest.length * 4 < pad4 len) :
    Args.next_array (len :: rest) = (none, rest) := by
  simp only [Args.next_array, Args.next_u32]
  rw [if_pos (by omega)]

/-! ### Claim theorems -/

/-- C1 (amended): for every well-formed `Message` whose `args` has length at
most 16381 (so that the framed byte count `8 + 4·len` fits the 16-bit size
field), `send` followed by `read` reproduces the object, the opcode and the
args exactly, consuming the whole stream. -/
theorem c1_send_read_round_trip (m : Message) (ho : m.object < 4294967296)
    (hop : m.opcode < 65536) (ha : ∀ a ∈ m.args, a < 4294967296)
    (hl : m.args.length ≤ 16381) :
    Message.read (Message.send m) = (Except.ok m, []) := by
  obtain ⟨object, opcode, args⟩ := m
  simp only at ho hop ha hl
  have hinfo := send_info hl hop
  have hinfolt : (8 + 4 * args.length) * 65536 + opcode < 4294967296 := by omega
  have hdiv : ((8 + 4 * args.length) * 65536 + opcode) / 65536 % 65536
      = 8 + 4 * args.length := by omega
  have hmod : ((8 + 4 * args.length) * 65536 + opcode) % 65536 = opcode := by omega
  have hwords : readWords (4 * args.length) (wordsToBytes args) = (Except.ok args, []) := by
    have h := @readWords_append args [] ha
    simpa using h
  simp only [Message.send]
  rw [List.append_assoc]
  simp only [Message.read, readExact_append (toLE4_length object),
    readExact_append (toLE4_length ((((8 + 4 * args.length) <<< 16) % 4294967296) ||| opcode)),
    hinfo, fromLE4_toLE4 hinfolt, hdiv, hmod]
  simp only [readExact_append (toLE4_length ((8 + 4 * args.length) * 65536 + opcode)),
    fromLE4_toLE4 hinfolt, hdiv, hmod]
  rw [if_neg (by omega)]
  have hsub : 8 + 4 * args.length - 8 = 4 * args.length := by omega
  simp only [hsub, hwords, fromLE4_toLE4 ho]

/-- C1 witness: the round trip at the concrete message `⟨1, 2, [3, 4]⟩`. -/
theorem c1_send_read_round_trip_witness :
    Message.read (Message.send ⟨1, 2, [3, 4]⟩) = (Except.ok ⟨1, 2, [3, 4]⟩, []) :=
  c1_send_read_round_trip ⟨1, 2, [3, 4]⟩ (by decide) (by decide) (by decide) (by decide)

/-- Sending a message with 16382 zero-valued arguments: the framed size
`8 + 4·16382 = 65536` overflows the 16-bit size field to 0, so decoding the
produced bytes rejects them as malformed. -/
theorem read_send_16382 (args : List Nat) (hlen : args.length = 16382) :
    Message.read (Message.send ⟨0, 0, args⟩)
      = (Except.error IOErr.invalidData, wordsToBytes args) := by
  have hinfo : (((8 + 4 * args.length) <<< 16) % 4294967296) ||| 0 = 0 := by
    rw [hlen]
    norm_num [Nat.shiftLeft_eq]
  simp only [Message.send, hinfo]
  rw [List.append_assoc]
  simp only [Message.read, readExact_append (toLE4_length 0),
    fromLE4_toLE4 (show (0 : Nat) < 4294967296 by norm_num)]
  rw [if_pos (by norm_num)]

/-- C1 counterexample: at `args.length = 16382` (within the claim's bound of
16383) `read` rejects the output of `send` with the framing error instead of
reproducing the message. -/
theorem c1_counterexample :
    (Message.read (Message.send ⟨0, 0, List.replicate 16382 0⟩)).1
        = Except.error IOErr.invalidData
      ∧ (Message.read (Message.send ⟨0, 0, List.replicate 16382 0⟩)).1
        ≠ Except.ok ⟨0, 0, List.replicate 16382 0⟩ := by
  have h := read_send_16382 (List.replicate 16382 0) (List.length_replicate 16382 0)
  refine ⟨by rw [h], fun hcontra => ?_⟩
  rw [h] at hcontra
  exact Except.noConfusion hcontra

/-- C2: evaluating `push_bytes` on `[0,1,2,0,3]` and then `next_array` on the
resulting words: the length word is written as `5 | 0b11 = 7`, so the reader
returns 7 bytes (the original 5 plus 2 padding zeros), not the 5 bytes the
claim requires. -/
theorem c2_push_bytes_next_array_eval :
    Args.next_array ((Message.push_bytes ⟨0, 0, []⟩ [0, 1, 2, 0, 3]).args)
        = (some [0, 1, 2, 0, 3, 0, 0], [])
      ∧ (some [0, 1, 2, 0, 3, 0, 0] : Option (List Nat)) ≠ some [0, 1, 2, 0, 3] := by
  decide

/-- C3: whenever the 8-byte header is available and its size field is not a
multiple of 4 or is below 8, `read` fails with the `InvalidData` framing
error (a distinct constructor from the end-of-stream error) and the stream
state is exactly the input minus the 8 header bytes: no body byte is
consumed. -/
theorem c3_framing_rejection (s : List Nat) (h8 : 8 ≤ s.length)
    (hbad : fromLE4 ((s.drop 4).take 4) / 65536 % 65536 % 4 ≠ 0
      ∨ fromLE4 ((s.drop 4).take 4) / 65536 % 65536 < 8) :
    Message.read s = (Except.error IOErr.invalidData, s.drop 8)
      ∧ IOErr.invalidData ≠ IOErr.unexpectedEof := by
  refine ⟨?_, by simp⟩
  simp only [Message.read, readExact_of_le (show 4 ≤ s.length by omega)]
  simp only [readExact_of_le
    (show 4 ≤ (s.drop 4).length by rw [List.length_drop]; omega)]
  rw [if_pos hbad]
  norm_num [List.drop_drop]

/-- C3 witness: the header `[0,0,0,0, 0,0,9,0]` declares size 9 (not a
multiple of 4); the three body bytes `[1,2,3]` stay unconsumed. -/
theorem c3_framing_rejection_witness :
    Message.read [0, 0, 0, 0, 0, 0, 9, 0, 1, 2, 3]
        = (Except.error IOErr.invalidData, [1, 2, 3])
      ∧ IOErr.invalidData ≠ IOErr.unexpectedEof := by
  have h := c3_framing_rejection [0, 0, 0, 0, 0, 0, 9, 0, 1, 2, 3] (by decide) (by decide)
  simpa using h

/-- C4 counterexample: the cursor `[2, 0x44434241]` declares a 2-byte string
whose word holds the bytes `[65, 66, 67, 68]` with no null anywhere.  The
code searches for the null within the padded 4-byte span and returns all 4
bytes; the claim's reading (search within the declared 2 bytes) would return
`[65, 66]`. -/
theorem c4_counterexample :
    Args.next_str [2, 1145258561] = (some [65, 66, 67, 68], [])
      ∧ Args.next_str_claim [2, 1145258561] = (some [65, 66], [])
      ∧ Args.next_str [2, 1145258561] ≠ Args.next_str_claim [2, 1145258561] := by
  decide

/-- C4 (amended): `next_str` reads a length word, rounds it up to the next
multiple of 4 to get the consumed padded span, returns None (consuming only
the length word) if the remaining words cannot cover that padded span, and
otherwise advances past the padded span and returns the bytes before the
first null byte occurring within the padded span (not merely within the
declared `len` bytes). -/
theorem c4_next_str_characterization (len0 : Nat) (rest : List Nat) :
    Args.next_str (len0 :: rest) =
      if pad4 len0 ≤ rest.length * 4 then
        (some (((wordsToBytes rest).take (pad4 len0)).takeWhile (fun b => b != 0)),
          rest.drop (pad4 len0 / 4))
      else (none, rest) := by
  by_cases h : pad4 len0 ≤ rest.length * 4
  · rw [if_pos h, next_str_cons_of_le h]
  · rw [if_neg h, next_str_cons_of_gt (by omega)]

/-- C5: `push_str` on `"abc"`, `"ab"` and `"abcd"` each round-trip through
`next_str` to the original content, and the length word written is
`content_length + 1` in each case. -/
theorem c5_push_str_round_trips :
    Args.next_str ((Message.push_str ⟨0, 0, []⟩ [97, 98, 99]).args) = (some [97, 98, 99], [])
      ∧ Args.next_str ((Message.push_str ⟨0, 0, []⟩ [97, 98]).args) = (some [97, 98], [])
      ∧ Args.next_str ((Message.push_str ⟨0, 0, []⟩ [97, 98, 99, 100]).args)
          = (some [97, 98, 99, 100], [])
      ∧ (Message.push_str ⟨0, 0, []⟩ [97, 98, 99]).args.head? = some 4
      ∧ (Message.push_str ⟨0, 0, []⟩ [97, 98]).args.head? = some 3
      ∧ (Message.push_str ⟨0, 0, []⟩ [97, 98, 99, 100]).args.head? = some 5 := by
  decide

/-- C6: when the declared length word, rounded up to whole words, exceeds
the remaining argument words, both `next_str` and `next_array` return None,
and the cursor still holds exactly the words after the length word (nothing
outside the remaining words is touched: the result is built from `rest`
alone). -/
theorem c6_bounds_fail (len0 : Nat) (rest : List Nat)
    (h : rest.length * 4 < pad4 len0) :
    Args.next_str (len0 :: rest) = (none, rest)
      ∧ Args.next_array (len0 :: rest) = (none, rest) :=
  ⟨next_str_cons_of_gt h, next_array_cons_of_gt h⟩

/-- C6 witness: a declared length of 9 with no remaining words. -/
theorem c6_bounds_fail_witness :
    Args.next_str [9] = (none, []) ∧ Args.next_array [9] = (none, []) :=
  c6_bounds_fail 9 [] (by decide)

/-- C7: when the leading string argument decodes structurally (its padded
span fits the remaining words) but its bytes are not valid UTF-8,
`next_new_id` fails with the `Utf8Error` naming the interface-name field,
and the cursor has nevertheless advanced past the string by its padded
length (`rest.drop (pad4 len0 / 4)`), so subsequent extraction is
consistent. -/
theorem c7_utf8_error (len0 : Nat) (rest : List Nat)
    (hb : pad4 len0 ≤ rest.length * 4)
    (hu : isValidUtf8 (((wordsToBytes rest).take (pad4 len0)).takeWhile (fun b => b != 0))
      = false) :
    Args.next_new_id (len0 :: rest)
      = (Except.error (DispatchError.Utf8Error "Interface name for a generic new_id"),
          rest.drop (pad4 len0 / 4)) := by
  simp only [Args.next_new_id, next_str_cons_of_le hb]
  rw [if_neg (by simp [hu])]

/-- C7 witness: the cursor `[2, 255]` carries the single byte `0xFF`, which
is not valid UTF-8. -/
theorem c7_utf8_error_witness :
    Args.next_new_id [2, 255]
      = (Except.error (DispatchError.Utf8Error "Interface name for a generic new_id"), []) := by
  have h := c7_utf8_error 2 [255] (by decide) (by decide)
  simpa using h

/-- C8: on an empty cursor `next_u32` returns no value (not an error), and
`next_new_id` fails with the missing-argument error naming
`"new_id interface"`. -/
theorem c8_exhausted_cursor :
    Args.next_u32 [] = (none, [])
      ∧ Args.next_new_id []
          = (Except.error (DispatchError.ExpectedArgument "new_id interface"), []) :=
  ⟨rfl, rfl⟩

/-- C9: `next_fd` (return type `!`, body `unimplemented!()`) fails on every
cursor state — modelled as the panic outcome of an `Except` with empty
success type — and can never return a value. -/
theorem c9_next_fd_always_fails (args : List Nat) :
    Args.next_fd args = Except.error "not implemented"
      ∧ ∀ v : Empty, Args.next_fd args ≠ Except.ok v :=
  ⟨rfl, fun v => v.elim⟩

/-- C10: a length word of 0 makes `next_array` succeed with the empty byte
slice, consuming exactly the length word, whatever words remain after it. -/
theorem c10_next_array_zero_length (rest : List Nat) :
    Args.next_array (0 :: rest) = (some [], rest) := by
  have h := @next_array_cons_of_le 0 rest (by simp [pad4])
  simpa [pad4] using h

end Wl
